import Mathlib

/-!
Verification of the `fastboot-rs` repository: the fastboot USB client
(`fastboot-protocol/src/nusb.rs`) and the Android sparse image example tool
(`android-sparse-image/examples/asparseimg.rs`).

The Rust code is shallowly embedded: machine integers become `Nat` with an
explicit `% 2 ^ 32` where `u32` wrapping matters, byte streams become
`List Nat`, fallible operations return `Except`, and the stateful download
helper becomes explicit state passing over a `DLState` record.  The crates
`fastboot-protocol/src/protocol.rs` and `android-sparse-image/src/lib.rs` are
not part of the sources; where a claim needs their behaviour it is modelled
from the specification and marked as such.
-/

namespace FastbootRs

/-! ## Fastboot protocol values

Modelled from the spec: `FastBootResponse` and `FastBootCommand` live in
`fastboot-protocol/src/protocol.rs`, which is not among the sources.  The
response variants are INFO / TEXT / DATA / OKAY / FAIL, DATA carrying a size
and the others a payload string. -/

inductive FastBootResponse where
  | Info (s : String)
  | Text (s : String)
  | Data (n : Nat)
  | Okay (s : String)
  | Fail (s : String)
  deriving DecidableEq, Repr

/-- Modelled from the spec: outgoing fastboot commands. -/
inductive FastBootCommand where
  | GetVar (name : String)
  | Download (size : Nat)
  | Flash (part : String)
  | Erase (part : String)
  | Reboot
  | RebootBootloader
  deriving DecidableEq, Repr

/-- Errors of `NusbFastBootError` in `nusb.rs` (the `Transfer` payload is
abstracted away). -/
inductive NusbFastBootError where
  | Transfer
  | FastbootFailed (reason : String)
  | FastbootUnexpectedReply
  | FastbootParseError
  deriving DecidableEq, Repr

/-! ## The response loop (`NusbFastBoot::handle_responses`)

The client reads one response per bulk-in transfer until a terminal variant
arrives.  The embedding consumes a list of already-parsed responses; `none`
means the list was exhausted with no terminal response (the real code would
block on another USB read). -/

def handleResponses : List FastBootResponse → Option (Except NusbFastBootError String)
  | [] => none
  | .Info _ :: rest => handleResponses rest
  | .Text _ :: rest => handleResponses rest
  | .Data _ :: _ => some (.error .FastbootUnexpectedReply)
  | .Okay value :: _ => some (.ok value)
  | .Fail fail :: _ => some (.error (.FastbootFailed fail))

/-- Embedding of `NusbFastBoot::execute`: send the command, then run the response loop.
The embedding records the command that was sent together with the result of
the response loop over the device's reply stream. -/
def execute (cmd : FastBootCommand) (replies : List FastBootResponse) :
    FastBootCommand × Option (Except NusbFastBootError String) :=
  (cmd, handleResponses replies)

/-- Embedding of `NusbFastBoot::get_var`. -/
def get_var (var : String) (replies : List FastBootResponse) :
    FastBootCommand × Option (Except NusbFastBootError String) :=
  execute (.GetVar var) replies

/-- Embedding of `NusbFastBoot::flash` (the OKAY payload is logged and discarded). -/
def flash (target : String) (replies : List FastBootResponse) :
    FastBootCommand × Option (Except NusbFastBootError Unit) :=
  let r := execute (.Flash target) replies
  (r.1, r.2.map (·.map fun _ => ()))

/-- Embedding of `NusbFastBoot::erase`. -/
def erase (target : String) (replies : List FastBootResponse) :
    FastBootCommand × Option (Except NusbFastBootError Unit) :=
  let r := execute (.Erase target) replies
  (r.1, r.2.map (·.map fun _ => ()))

/-- Embedding of `NusbFastBoot::reboot`. -/
def reboot (replies : List FastBootResponse) :
    FastBootCommand × Option (Except NusbFastBootError Unit) :=
  let r := execute .Reboot replies
  (r.1, r.2.map (·.map fun _ => ()))

/-- Embedding of `NusbFastBoot::reboot_bootloader`. -/
def reboot_bootloader (replies : List FastBootResponse) :
    FastBootCommand × Option (Except NusbFastBootError Unit) :=
  let r := execute .RebootBootloader replies
  (r.1, r.2.map (·.map fun _ => ()))

/-! ## `get_all_vars` string handling -/

/-- Rust `str::rsplit_once(c)` on the character list of the string: split at
the last occurrence of `c`, returning the parts before and after it. -/
def rsplitOnceList (c : Char) : List Char → Option (List Char × List Char)
  | [] => none
  | x :: xs =>
    match rsplitOnceList c xs with
    | some (k, v) => some (x :: k, v)
    | none => if x = c then some ([], xs) else none

/-- Rust `str::rsplit_once` lifted to `String`. -/
def rsplitOnceStr (s : String) (c : Char) : Option (String × String) :=
  (rsplitOnceList c s.toList).map fun p => (String.mk p.1, String.mk p.2)

/-- Rust `str::trim` on a character list: drop leading and trailing
whitespace (modelled with `Char.isWhitespace`, which covers the ASCII
whitespace occurring in fastboot INFO payloads). -/
def trimList (s : List Char) : List Char :=
  ((s.dropWhile Char.isWhitespace).reverse.dropWhile Char.isWhitespace).reverse

/-- Rust `str::trim` lifted to `String`. -/
def trimStr (s : String) : String :=
  String.mk (trimList s.toList)

/-- Rust `HashMap::insert` on the association-list model of the variable map:
replace the binding of an existing key, otherwise append the new binding. -/
def insertVar : List (String × String) → String → String → List (String × String)
  | [], k, v => [(k, v)]
  | (k', v') :: rest, k, v =>
    if k' = k then (k, v) :: rest else (k', v') :: insertVar rest k v

/-- The response loop of `NusbFastBoot::get_all_vars`: INFO payloads are
split on the last colon into a trimmed key/value pair and inserted; INFO
payloads without a colon are logged and skipped; TEXT is logged and skipped;
DATA is an unexpected reply; OKAY returns the accumulated map; FAIL fails. -/
def getAllVarsLoop : List FastBootResponse → List (String × String) →
    Option (Except NusbFastBootError (List (String × String)))
  | [], _ => none
  | .Info i :: rest, vars =>
    match rsplitOnceStr i ':' with
    | none => getAllVarsLoop rest vars
    | some (key, value) => getAllVarsLoop rest (insertVar vars (trimStr key) (trimStr value))
  | .Text _ :: rest, vars => getAllVarsLoop rest vars
  | .Data _ :: _, _ => some (.error .FastbootUnexpectedReply)
  | .Okay _ :: _, vars => some (.ok vars)
  | .Fail fail :: _, _ => some (.error (.FastbootFailed fail))

/-- Embedding of `NusbFastBoot::get_all_vars`: send `GetVar("all")` and run the
variable-collecting response loop starting from the empty map. -/
def get_all_vars (replies : List FastBootResponse) :
    FastBootCommand × Option (Except NusbFastBootError (List (String × String))) :=
  (.GetVar "all", getAllVarsLoop replies [])

/-! ## Endpoint discovery (`NusbFastBoot::from_interface`)

The `nusb` descriptor types are abstracted to the fields the code reads:
transfer type, direction, address and max packet size. -/

inductive EndpointType where
  | Control
  | Isochronous
  | Bulk
  | Interrupt
  deriving DecidableEq, Repr

inductive Direction where
  | Out
  | In
  deriving DecidableEq, Repr

/-- Modelled from the `nusb` descriptor API: one endpoint descriptor. -/
structure EndpointDesc where
  transferType : EndpointType
  direction : Direction
  address : Nat
  maxPacketSize : Nat
  deriving DecidableEq, Repr

/-- Modelled from the `nusb` descriptor API: one alternate setting of the
claimed interface, i.e. its list of endpoint descriptors. -/
structure AltSetting where
  endpoints : List EndpointDesc
  deriving DecidableEq, Repr

/-- Errors of `NusbFastBootOpenError` in `nusb.rs` (IO payloads abstracted). -/
inductive NusbFastBootOpenError where
  | Device
  | Interface
  | MissingInterface
  | MissingEndpoints
  | FastbootOpenParseError
  deriving DecidableEq, Repr

/-- The predicate tested by the two inner `find_map` closures of
`from_interface`: a bulk endpoint of the given direction. -/
def isBulkDir (d : Direction) (e : EndpointDesc) : Bool :=
  e.transferType == .Bulk && e.direction == d

/-- The inner `find_map` of `from_interface`: the first bulk endpoint of the
given direction, with its address and max packet size. -/
def findBulk (d : Direction) : List EndpointDesc → Option (Nat × Nat)
  | [] => none
  | e :: rest =>
    if isBulkDir d e then some (e.address, e.maxPacketSize) else findBulk d rest

/-- The body of the outer `find_map` of `from_interface`: the first bulk OUT
and the first bulk IN endpoint of one alternate setting, or `none` when
either is missing. -/
def findEndpoints (alt : AltSetting) : Option (Nat × Nat × Nat × Nat) := do
  let (epOut, maxOut) ← findBulk .Out alt.endpoints
  let (epIn, maxIn) ← findBulk .In alt.endpoints
  some (epOut, maxOut, epIn, maxIn)

/-- The `find_map` over alternate settings in `from_interface`. -/
def findAlt : List AltSetting → Option (Nat × Nat × Nat × Nat)
  | [] => none
  | alt :: rest =>
    match findEndpoints alt with
    | some r => some r
    | none => findAlt rest

/-- Embedding of `NusbFastBoot::from_interface`, restricted to the endpoint
discovery it performs on the claimed interface's alternate settings: the
resulting `(ep_out, max_out, ep_in, max_in)` quadruple or `MissingEndpoints`. -/
def from_interface (alts : List AltSetting) :
    Except NusbFastBootOpenError (Nat × Nat × Nat × Nat) :=
  match findAlt alts with
  | some r => .ok r
  | none => .error .MissingEndpoints

/-! ## The download streamer (`DataDownload`)

The streamer is embedded as explicit state passing.  Buffers are their byte
contents (`List Nat`); every buffer in a run has the same capacity
`nextMultipleOf (1024 * 1024) maxOut`, so the capacity is kept implicitly.
Two ghost fields record what the claims quantify over: `submitted` is the
log of every buffer ever submitted to the bulk-out queue, `hiwater` the
largest number of pending transfers ever observed, and `allocs` counts calls
to `allocate_buffer`.  Transfer completions are modelled as always
successful, and completions are consumed in submission order (strict FIFO,
as the spec's concurrency model states). -/

/-- Rust `usize::next_multiple_of` (the `m = 0` case, which panics in Rust,
is mapped to the identity; all theorems assume a positive packet size). -/
def nextMultipleOf (a m : Nat) : Nat :=
  if m = 0 then a else (a + m - 1) / m * m

/-- Errors of `DownloadError` in `nusb.rs`. -/
inductive DownloadError where
  | NothingQueued
  | IncorrectDataLength (expected actual : Nat)
  | Nusb (e : NusbFastBootError)
  deriving DecidableEq, Repr

/-- State of a `DataDownload` streamer. -/
structure DLState where
  /-- Max packet size of the OUT endpoint (`fastboot.max_out`). -/
  maxOut : Nat
  /-- Declared total download size (`self.size`, a `u32`). -/
  size : Nat
  /-- Bytes not yet supplied (`self.left`, a `u32`). -/
  left : Nat
  /-- Contents of the rolling buffer (`self.current`). -/
  current : List Nat
  /-- Buffers submitted to the bulk-out queue and not yet retrieved by
  `next_complete`, oldest first (`self.queue`). -/
  pending : List (List Nat)
  /-- Ghost log of every buffer ever submitted, in submission order. -/
  submitted : List (List Nat)
  /-- Ghost high-water mark of `pending.length` observed after a submit. -/
  hiwater : Nat
  /-- Ghost count of `allocate_buffer` calls. -/
  allocs : Nat
  deriving DecidableEq, Repr

/-- Capacity of every buffer of the run: `allocate_buffer` allocates about
1 MiB rounded up to a multiple of the max OUT packet size. -/
def DLState.cap (st : DLState) : Nat :=
  nextMultipleOf (1024 * 1024) st.maxOut

/-- Embedding of `DataDownload::new`: a fresh streamer with one allocated
(empty) rolling buffer and `left = size`. -/
def DataDownload.new (maxOut size : Nat) : DLState :=
  { maxOut := maxOut, size := size, left := size, current := [],
    pending := [], submitted := [], hiwater := 0, allocs := 1 }

/-- Submission of a buffer to the bulk-out queue (`self.queue.submit`),
also updating the ghost log and the ghost high-water mark. -/
def submitBuf (st : DLState) (b : List Nat) : DLState :=
  { st with
    pending := st.pending ++ [b],
    submitted := st.submitted ++ [b],
    hiwater := max st.hiwater (st.pending.length + 1) }

/-- Embedding of `DataDownload::next_buffer`: while fewer than three
transfers are pending a fresh buffer is allocated, otherwise the oldest
completion is awaited and its buffer reused truncated to length 0; either
way the buffers are swapped and the full one submitted. -/
def next_buffer (st : DLState) : DLState :=
  if st.pending.length < 3 then
    submitBuf { st with current := [], allocs := st.allocs + 1 } st.current
  else
    submitBuf { st with current := [], pending := st.pending.tail } st.current

/-- Embedding of `DataDownload::update_size`: fail with `IncorrectDataLength`
when the new bytes exceed what is left, otherwise decrement `left`.  The
`actual` field is computed with `u32` arithmetic, hence the `% 2 ^ 32`. -/
def update_size (st : DLState) (n : Nat) : Except DownloadError Unit × DLState :=
  if st.left < n then
    (.error (.IncorrectDataLength st.size ((n - st.left + st.size) % 2 ^ 32)), st)
  else
    (.ok (), { st with left := st.left - n })

/-- The copy loop of `DataDownload::extend_from_slice`: greedily append to
`current`; when `current` is full submit it via `next_buffer` and continue
with the remainder.  The loop is driven by fuel; `2 * data.length + 2` is
always sufficient since the capacity is positive, so after each rotation the
next iteration either terminates or consumes at least one byte. -/
def extendLoop : Nat → DLState → List Nat → DLState
  | 0, st, _ => st
  | fuel + 1, st, data =>
    if data.length ≤ st.cap - st.current.length then
      { st with current := st.current ++ data }
    else
      extendLoop fuel
        (next_buffer
          { st with current := st.current ++ data.take (st.cap - st.current.length) })
        (data.drop (st.cap - st.current.length))

/-- Embedding of `DataDownload::extend_from_slice`: account for the new
bytes first (`update_size`, with the `as u32` cast), then run the copy
loop. -/
def extend_from_slice (st : DLState) (data : List Nat) :
    Except DownloadError Unit × DLState :=
  match update_size st (data.length % 2 ^ 32) with
  | (.error e, st') => (.error e, st')
  | (.ok _, st') => (.ok (), extendLoop (2 * data.length + 2) st' data)

/-- The part of `DataDownload::get_mut_data` after the possible rotation:
grant `min (capacity - len) max` bytes, account for them (`update_size`,
with the `as u32` cast), and grow `current` by that many zero bytes
(`resize`); the caller fills the returned slice, whose length is returned
here. -/
def gmdCore (st : DLState) (max : Nat) : Except DownloadError Nat × DLState :=
  match update_size st (min (st.cap - st.current.length) max % 2 ^ 32) with
  | (.error e, st') => (.error e, st')
  | (.ok _, st') =>
    (.ok (min (st.cap - st.current.length) max),
     { st' with current :=
        st'.current ++ List.replicate (min (st.cap - st.current.length) max) 0 })

/-- Embedding of `DataDownload::get_mut_data`: rotate if `current` is full,
then grant, account and grow (`gmdCore`). -/
def get_mut_data (st : DLState) (max : Nat) : Except DownloadError Nat × DLState :=
  gmdCore (if st.current.length = st.cap then next_buffer st else st) max

/-- Embedding of `DataDownload::finish`: fail with `IncorrectDataLength`
when `left ≠ 0`; otherwise submit the final (possibly short) buffer if it is
non-empty and drain every pending completion.  The terminating
`handle_responses` pass happens on the client afterwards and is outside this
state. -/
def finish (st : DLState) : Except DownloadError Unit × DLState :=
  if st.left ≠ 0 then
    (.error (.IncorrectDataLength st.size ((st.size - st.left) % 2 ^ 32)), st)
  else if st.current ≠ [] then
    (.ok (), { submitBuf { st with current := [] } st.current with pending := [] })
  else
    (.ok (), { st with pending := [] })

/-- One public streaming operation of `DataDownload`. -/
inductive DLOp where
  | ext (data : List Nat)
  | gmd (max : Nat)
  deriving Repr

/-- Application of one streaming operation to the state (the result value is
dropped; the state evolves whether or not the operation failed, as Rust's
`&mut self` methods do). -/
def runOp (st : DLState) : DLOp → DLState
  | .ext data => (extend_from_slice st data).2
  | .gmd max => (get_mut_data st max).2

/-- Application of a sequence of streaming operations. -/
def runOps : DLState → List DLOp → DLState
  | st, [] => st
  | st, op :: ops => runOps (runOp st op) ops

/-- Every byte accepted by the streamer, in order: the concatenation of all
submitted buffers followed by the rolling buffer's content. -/
def streamBytes (st : DLState) : List Nat :=
  st.submitted.flatten ++ st.current

/-! ## Android sparse image: header codec

Modelled from the spec: `FileHeader`, `ChunkHeader` and their `from_bytes`
decoders live in `android-sparse-image/src/lib.rs`, which is not among the
sources.  The wire layout is little-endian; decoding rejects a wrong magic,
an unsupported major version, mismatched header-size fields, an unrecognized
chunk type code, a `block_size` not a multiple of 4, a `total_size < 12`,
and a payload length that disagrees with the chunk type's fixed size (Fill
and Crc32 carry 4 bytes, DontCare none; the Raw payload length depends on
`block_size`, which `ChunkHeader::from_bytes` does not see, so it is not
checked there). -/

/-- Little-endian decoding of two bytes. -/
def le16 (b0 b1 : Nat) : Nat := b0 + 256 * b1

/-- Little-endian decoding of four bytes. -/
def le32 (b0 b1 b2 b3 : Nat) : Nat := b0 + 256 * (b1 + 256 * (b2 + 256 * b3))

/-- Little-endian encoding of a 16-bit value. -/
def le16Bytes (n : Nat) : List Nat := [n % 256, n / 256 % 256]

/-- Little-endian encoding of a 32-bit value. -/
def le32Bytes (n : Nat) : List Nat :=
  [n % 256, n / 256 % 256, n / 65536 % 256, n / 16777216 % 256]

/-- Structural errors of the sparse codec and expand engine. -/
inductive SparseError where
  | TruncatedInput
  | BadMagic (m : Nat)
  | BadMajorVersion (v : Nat)
  | BadHeaderSizes
  | BadBlockSize (b : Nat)
  | UnknownChunkType (t : Nat)
  | BadChunkSize
  deriving DecidableEq, Repr

/-- Sparse image chunk types with their wire codes 0xCAC1..0xCAC4. -/
inductive ChunkType where
  | Raw
  | Fill
  | DontCare
  | Crc32
  deriving DecidableEq, Repr

/-- Sparse file header (the fields the tool reads). -/
structure FileHeader where
  block_size : Nat
  blocks : Nat
  chunks : Nat
  checksum : Nat
  deriving DecidableEq, Repr

/-- Sparse chunk header. -/
structure ChunkHeader where
  chunk_type : ChunkType
  chunk_size : Nat
  total_size : Nat
  deriving DecidableEq, Repr

/-- Modelled from the spec: `FileHeader::from_bytes` on a 28-byte block. -/
def FileHeader.from_bytes (b : List Nat) : Except SparseError FileHeader :=
  let g := fun i => b.getD i 0
  let magic := le32 (g 0) (g 1) (g 2) (g 3)
  let major := le16 (g 4) (g 5)
  let fileHdrSize := le16 (g 8) (g 9)
  let chunkHdrSize := le16 (g 10) (g 11)
  let blockSize := le32 (g 12) (g 13) (g 14) (g 15)
  if magic ≠ 0xED26FF3A then .error (.BadMagic magic)
  else if major ≠ 1 then .error (.BadMajorVersion major)
  else if fileHdrSize ≠ 28 ∨ chunkHdrSize ≠ 12 then .error .BadHeaderSizes
  else if blockSize % 4 ≠ 0 then .error (.BadBlockSize blockSize)
  else .ok
    { block_size := blockSize,
      blocks := le32 (g 16) (g 17) (g 18) (g 19),
      chunks := le32 (g 20) (g 21) (g 22) (g 23),
      checksum := le32 (g 24) (g 25) (g 26) (g 27) }

/-- Modelled from the spec: `ChunkHeader::from_bytes` on a 12-byte block. -/
def ChunkHeader.from_bytes (b : List Nat) : Except SparseError ChunkHeader :=
  let g := fun i => b.getD i 0
  let t := le16 (g 0) (g 1)
  let chunkSize := le32 (g 4) (g 5) (g 6) (g 7)
  let totalSize := le32 (g 8) (g 9) (g 10) (g 11)
  let mk := fun ty => ChunkHeader.mk ty chunkSize totalSize
  if totalSize < 12 then .error .BadChunkSize
  else if t = 0xCAC1 then .ok (mk .Raw)
  else if t = 0xCAC2 then
    if totalSize - 12 = 4 then .ok (mk .Fill) else .error .BadChunkSize
  else if t = 0xCAC3 then
    if totalSize - 12 = 0 then .ok (mk .DontCare) else .error .BadChunkSize
  else if t = 0xCAC4 then
    if totalSize - 12 = 4 then .ok (mk .Crc32) else .error .BadChunkSize
  else .error (.UnknownChunkType t)

/-- Derived helper `chunk.data_size()`: payload bytes on the wire. -/
def ChunkHeader.data_size (c : ChunkHeader) : Nat := c.total_size - 12

/-- Derived helper `chunk.out_size(header)`: output bytes covered. -/
def ChunkHeader.out_size (c : ChunkHeader) (h : FileHeader) : Nat :=
  c.chunk_size * h.block_size

/-! ## Android sparse image: the `expand` engine

Embedding of `expand` in `asparseimg.rs`.  The input file is the list of
bytes not yet read (`read_exact` fails on a short read; `io::copy` from a
`take` adapter copies what is available and stops silently).  The output
file is a byte list plus a write position: `write` pads the file with zero
bytes up to the position if needed (writing after a forward seek creates a
hole that reads back as zeros), while `seek` alone moves the position
without changing the file's length — exactly POSIX behaviour for the fresh
file the tool opens.  The final file length is the data length after the
last write; the trailing `flush` adds nothing. -/

/-- Output file state: contents and write position. -/
structure OutFile where
  data : List Nat
  pos : Nat
  deriving DecidableEq, Repr

/-- Writing bytes at the current position: pad with zeros up to `pos` if the
file is shorter, overwrite from `pos` on, and advance the position. -/
def OutFile.write (o : OutFile) (bs : List Nat) : OutFile :=
  let padded := o.data ++ List.replicate (o.pos - o.data.length) 0
  { data := padded.take o.pos ++ bs ++ padded.drop (o.pos + bs.length),
    pos := o.pos + bs.length }

/-- Rust `Read::read_exact`: fail when fewer than `n` bytes remain. -/
def readExact (s : List Nat) (n : Nat) : Except SparseError (List Nat × List Nat) :=
  if s.length < n then .error .TruncatedInput else .ok (s.take n, s.drop n)

/-- The per-chunk loop of `expand`, iterated `header.chunks` times: read and
decode a chunk header, then materialize the chunk.  Raw copies up to
`out_size` bytes (`io::copy` of a `take` adapter — a short input is accepted
silently); Fill reads the 4-byte pattern and writes it `out_size / 4` times;
DontCare seeks forward by `out_size`; Crc32 only logs, consuming no input. -/
def expandChunks (hdr : FileHeader) : Nat → List Nat → OutFile → Except SparseError OutFile
  | 0, _, out => .ok out
  | n + 1, s, out => do
    let (cb, s) ← readExact s 12
    let chunk ← ChunkHeader.from_bytes cb
    let outSize := chunk.out_size hdr
    match chunk.chunk_type with
    | .Raw =>
      expandChunks hdr n (s.drop outSize) (out.write (s.take outSize))
    | .Fill => do
      let (fill, s) ← readExact s 4
      expandChunks hdr n s (out.write (List.replicate (outSize / 4) fill).flatten)
    | .DontCare =>
      expandChunks hdr n s { out with pos := out.pos + outSize }
    | .Crc32 =>
      expandChunks hdr n s out

/-- Embedding of `expand` in `asparseimg.rs`: read and decode the 28-byte
file header, run the chunk loop, and return the bytes of the output file. -/
def expand (input : List Nat) : Except SparseError (List Nat) := do
  let (hb, s) ← readExact input 28
  let hdr ← FileHeader.from_bytes hb
  let out ← expandChunks hdr hdr.chunks s ⟨[], 0⟩
  pure out.data

/-- File header bytes of a sparse image (magic, version 1.0, header sizes
28/12, then the given field values). -/
def fileHeaderBytes (blockSize blocks chunks checksum : Nat) : List Nat :=
  le32Bytes 0xED26FF3A ++ le16Bytes 1 ++ le16Bytes 0 ++ le16Bytes 28 ++
    le16Bytes 12 ++ le32Bytes blockSize ++ le32Bytes blocks ++
    le32Bytes chunks ++ le32Bytes checksum

/-- Chunk header bytes (type code, reserved 0, chunk size, total size). -/
def chunkHeaderBytes (ty chunkSize totalSize : Nat) : List Nat :=
  le16Bytes ty ++ le16Bytes 0 ++ le32Bytes chunkSize ++ le32Bytes totalSize

end FastbootRs

namespace FastbootRs

/-- If the separator occurs in the list, `rsplitOnceList` finds a split. -/
theorem rsplitOnceList_isSome_of_mem (c : Char) :
    ∀ s, c ∈ s → rsplitOnceList c s ≠ none := by
  intro s
  induction s with
  | nil => simp
  | cons y ys ihy =>
    intro hc
    simp only [rsplitOnceList]
    cases hys : rsplitOnceList c ys with
    | some p => simp
    | none =>
      simp only [List.mem_cons] at hc
      rcases hc with hc | hc
      · simp [hys, hc]
      · exact absurd hys (ihy hc)

/-- Splitting with `rsplitOnceList` happens at the last occurrence of the
separator. -/
theorem rsplitOnceList_last_colon (c : Char) :
    ∀ s k v, rsplitOnceList c s = some (k, v) → s = k ++ c :: v ∧ c ∉ v := by
  intro s
  induction s with
  | nil => intro k v h; simp [rsplitOnceList] at h
  | cons x xs ih =>
    intro k v h
    simp only [rsplitOnceList] at h
    cases hxs : rsplitOnceList c xs with
    | some p =>
      rw [hxs] at h
      obtain ⟨k', v'⟩ := p
      simp at h
      obtain ⟨hk, hv⟩ := h
      obtain ⟨hs, hnot⟩ := ih k' v' hxs
      subst hk hv hs
      simp
      exact hnot
    | none =>
      rw [hxs] at h
      by_cases hx : x = c
      · simp [hx] at h
        obtain ⟨hk, hv⟩ := h
        subst hv
        constructor
        · simp [← hk, hx]
        · intro hc
          exact rsplitOnceList_isSome_of_mem c xs hc hxs
      · simp [hx] at h

/-- C1: the claim states that during `expand` each Crc32 chunk causes exactly
4 payload bytes to be read and discarded, so that the input position advances
past the CRC payload before the next chunk header is read, and expansion does
not fail because of the chunk.  The code's Crc32 arm only logs and consumes
nothing, so on an image whose Crc32 chunk precedes a DontCare chunk the next
header read starts at the 4 CRC payload bytes and decoding fails: `expand`
returns a structural error instead of succeeding. -/
theorem C1_crc32_payload_left_in_stream :
    expand (fileHeaderBytes 4 1 2 0 ++ chunkHeaderBytes 0xCAC4 0 16 ++
        [0, 0, 0, 0] ++ chunkHeaderBytes 0xCAC3 1 12) =
      .error .BadChunkSize := rfl

/-- C2: the claim states that after the final chunk the output length is
exactly `block_size × blocks`, a trailing DontCare chunk leaving a hole or
zeros rather than the file ending early.  On the image with `block_size = 4`,
`blocks = 2` and chunks Raw(1 block of 0xAA) then DontCare(1 block), the
code's DontCare arm only seeks — which never extends the file — so `expand`
produces a 4-byte file instead of the required 8 bytes. -/
theorem C2_trailing_dontcare_short_output :
    expand (fileHeaderBytes 4 2 2 0 ++ chunkHeaderBytes 0xCAC1 1 16 ++
        [0xAA, 0xAA, 0xAA, 0xAA] ++ chunkHeaderBytes 0xCAC3 1 12) =
      .ok [0xAA, 0xAA, 0xAA, 0xAA] ∧
    ([0xAA, 0xAA, 0xAA, 0xAA] : List Nat).length ≠ 4 * 2 := ⟨rfl, by decide⟩

/-- C3: the claim states that a Raw chunk whose payload has fewer than
`out_size` bytes available makes `expand` fail rather than complete.  The
code copies the Raw payload with `io::copy` over a `take` adapter and never
checks the copied count, so on an image whose single Raw chunk declares one
4-byte block but whose payload is cut to 2 bytes, `expand` completes
successfully with a short output instead of failing. -/
theorem C3_truncated_raw_accepted :
    expand (fileHeaderBytes 4 1 1 0 ++ chunkHeaderBytes 0xCAC1 1 16 ++ [1, 2]) =
      .ok [1, 2] ∧ ([1, 2] : List Nat).length < 1 * 4 := ⟨rfl, by decide⟩

/-- C7: in the response loop used by `execute` (and hence by `get_var`,
`flash`, `erase`, `reboot` and `reboot_bootloader`), INFO and TEXT responses
are consumed without terminating the loop, DATA terminates with
`FastbootUnexpectedReply`, OKAY terminates returning its payload string, and
FAIL terminates with `FastbootFailed` carrying the reason. -/
theorem C7_response_policy :
    (∀ (s : String) (rest : List FastBootResponse),
        handleResponses (.Info s :: rest) = handleResponses rest) ∧
    (∀ (s : String) (rest : List FastBootResponse),
        handleResponses (.Text s :: rest) = handleResponses rest) ∧
    (∀ (n : Nat) (rest : List FastBootResponse),
        handleResponses (.Data n :: rest) = some (.error .FastbootUnexpectedReply)) ∧
    (∀ (v : String) (rest : List FastBootResponse),
        handleResponses (.Okay v :: rest) = some (.ok v)) ∧
    (∀ (f : String) (rest : List FastBootResponse),
        handleResponses (.Fail f :: rest) = some (.error (.FastbootFailed f))) ∧
    (∀ (cmd : FastBootCommand) (replies : List FastBootResponse),
        execute cmd replies = (cmd, handleResponses replies)) ∧
    (∀ (v : String) (replies : List FastBootResponse),
        get_var v replies = (.GetVar v, handleResponses replies)) ∧
    (∀ (t : String) (replies : List FastBootResponse),
        flash t replies = (.Flash t, (handleResponses replies).map (·.map fun _ => ()))) ∧
    (∀ (t : String) (replies : List FastBootResponse),
        erase t replies = (.Erase t, (handleResponses replies).map (·.map fun _ => ()))) ∧
    (∀ replies : List FastBootResponse,
        reboot replies = (.Reboot, (handleResponses replies).map (·.map fun _ => ()))) ∧
    (∀ replies : List FastBootResponse,
        reboot_bootloader replies =
          (.RebootBootloader, (handleResponses replies).map (·.map fun _ => ()))) :=
  ⟨fun _ _ => rfl, fun _ _ => rfl, fun _ _ => rfl, fun _ _ => rfl, fun _ _ => rfl,
   fun _ _ => rfl, fun _ _ => rfl, fun _ _ => rfl, fun _ _ => rfl,
   fun _ => rfl, fun _ => rfl⟩

/-- C8: `get_all_vars` sends `GetVar("all")`; until OKAY each INFO payload
is split on its last colon into a key and a value, both trimmed, and
inserted into the map; an INFO payload without a colon is skipped; DATA
yields `FastbootUnexpectedReply`; FAIL yields `FastbootFailed`; OKAY returns
the accumulated map.  The split really is at the last colon: the two parts
reassemble the payload around a colon and the value contains none. -/
theorem C8_get_all_vars_policy :
    (∀ replies : List FastBootResponse, (get_all_vars replies).1 = .GetVar "all") ∧
    (∀ replies : List FastBootResponse,
        (get_all_vars replies).2 = getAllVarsLoop replies []) ∧
    (∀ (i : String) (rest : List FastBootResponse) (vars : List (String × String))
        (k v : String), rsplitOnceStr i ':' = some (k, v) →
        getAllVarsLoop (.Info i :: rest) vars =
          getAllVarsLoop rest (insertVar vars (trimStr k) (trimStr v))) ∧
    (∀ (i : String) (rest : List FastBootResponse) (vars : List (String × String)),
        rsplitOnceStr i ':' = none →
        getAllVarsLoop (.Info i :: rest) vars = getAllVarsLoop rest vars) ∧
    (∀ (s k v : String), rsplitOnceStr s ':' = some (k, v) →
        s.toList = k.toList ++ ':' :: v.toList ∧ ':' ∉ v.toList) ∧
    (∀ (n : Nat) (rest : List FastBootResponse) (vars : List (String × String)),
        getAllVarsLoop (.Data n :: rest) vars = some (.error .FastbootUnexpectedReply)) ∧
    (∀ (o : String) (rest : List FastBootResponse) (vars : List (String × String)),
        getAllVarsLoop (.Okay o :: rest) vars = some (.ok vars)) ∧
    (∀ (f : String) (rest : List FastBootResponse) (vars : List (String × String)),
        getAllVarsLoop (.Fail f :: rest) vars = some (.error (.FastbootFailed f))) := by
  refine ⟨fun _ => rfl, fun _ => rfl, ?_, ?_, ?_, fun _ _ _ => rfl, fun _ _ _ => rfl,
    fun _ _ _ => rfl⟩
  · intro i rest vars k v h
    simp only [getAllVarsLoop, h]
  · intro i rest vars h
    simp only [getAllVarsLoop, h]
  · intro s k v h
    simp only [rsplitOnceStr, Option.map_eq_some'] at h
    obtain ⟨⟨kl, vl⟩, hsplit, hkv⟩ := h
    obtain ⟨hs, hnot⟩ := rsplitOnceList_last_colon ':' s.toList kl vl hsplit
    obtain ⟨hk, hv⟩ := Prod.mk.injEq .. ▸ hkv
    subst hk hv
    exact ⟨hs, hnot⟩

/-- C8 witness: the policy applied to the payload `"a b:c: d "`, whose last
colon separates `"a b:c"` from `" d "`, the parts being trimmed to
`"a b:c"` and `"d"`. -/
theorem C8_get_all_vars_policy_witness :
    rsplitOnceStr "a b:c: d " ':' = some ("a b:c", " d ") ∧
    getAllVarsLoop [.Info "a b:c: d ", .Okay ""] [] =
      getAllVarsLoop [.Okay ""] (insertVar [] (trimStr "a b:c") (trimStr " d ")) ∧
    "a b:c: d ".toList = "a b:c".toList ++ ':' :: " d ".toList ∧
    ':' ∉ " d ".toList :=
  ⟨by decide,
   C8_get_all_vars_policy.2.2.1 "a b:c: d " [.Okay ""] [] "a b:c" " d " (by decide),
   (C8_get_all_vars_policy.2.2.2.2.1 "a b:c: d " "a b:c" " d " (by decide)).1,
   (C8_get_all_vars_policy.2.2.2.2.1 "a b:c: d " "a b:c" " d " (by decide)).2⟩

/-- C9 counterexample: the claim states that an alternate setting is selected
only when it exposes exactly one bulk-OUT and exactly one bulk-IN endpoint,
so a setting with the wrong number of bulk endpoints in either direction is
not selected.  But `from_interface` happily selects a setting with two
bulk-OUT endpoints, recording the first of them. -/
theorem C9_counterexample :
    from_interface [AltSetting.mk [⟨.Bulk, .Out, 1, 512⟩, ⟨.Bulk, .Out, 2, 512⟩,
        ⟨.Bulk, .In, 129, 512⟩]] = .ok (1, 512, 129, 512) ∧
    ((AltSetting.mk [⟨.Bulk, .Out, 1, 512⟩, ⟨.Bulk, .Out, 2, 512⟩,
        ⟨.Bulk, .In, 129, 512⟩]).endpoints.filter (isBulkDir .Out)).length = 2 :=
  ⟨rfl, by decide⟩

/-- Characterization of `findBulk` returning nothing: no endpoint of the
list is a bulk endpoint of the requested direction. -/
theorem findBulk_eq_none_iff (d : Direction) :
    ∀ eps : List EndpointDesc,
      findBulk d eps = none ↔ ∀ e ∈ eps, isBulkDir d e = false := by
  intro eps
  induction eps with
  | nil => simp [findBulk]
  | cons e rest ih =>
    by_cases he : isBulkDir d e
    · simp [findBulk, he]
    · simp [findBulk, he, ih, Bool.not_eq_true] at *

/-- Characterization of `findEndpoints` returning nothing: the alternate
setting misses a bulk endpoint in one of the two directions. -/
theorem findEndpoints_eq_none_iff (alt : AltSetting) :
    findEndpoints alt = none ↔
      findBulk .Out alt.endpoints = none ∨ findBulk .In alt.endpoints = none := by
  unfold findEndpoints
  cases ho : findBulk .Out alt.endpoints with
  | none => simp
  | some po =>
    cases hi : findBulk .In alt.endpoints with
    | none => simp [bind, hi]
    | some pi => simp [bind, hi]

/-- Characterization of `findAlt` returning nothing: no alternate setting
provides both endpoints. -/
theorem findAlt_eq_none_iff :
    ∀ alts : List AltSetting,
      findAlt alts = none ↔ ∀ alt ∈ alts, findEndpoints alt = none := by
  intro alts
  induction alts with
  | nil => simp [findAlt]
  | cons alt rest ih =>
    cases h : findEndpoints alt with
    | none => simp [findAlt, h, ih]
    | some r => simp [findAlt, h]

/-- C9 (amended): `from_interface` selects the first alternate setting that
exposes at least one bulk-OUT and at least one bulk-IN endpoint, recording
the address and max packet size of the first bulk endpoint of each
direction, and fails with `MissingEndpoints` exactly when no alternate
setting provides both directions. -/
theorem C9_first_alt_with_bulk_pair :
    (∀ alts : List AltSetting,
        from_interface alts = .error .MissingEndpoints ↔
          ∀ alt ∈ alts, findBulk .Out alt.endpoints = none ∨
            findBulk .In alt.endpoints = none) ∧
    (∀ (d : Direction) (eps : List EndpointDesc),
        findBulk d eps = none ↔ ∀ e ∈ eps, isBulkDir d e = false) ∧
    (∀ (d : Direction) (e : EndpointDesc) (eps : List EndpointDesc),
        findBulk d (e :: eps) =
          if isBulkDir d e then some (e.address, e.maxPacketSize) else findBulk d eps) ∧
    (∀ (alt : AltSetting) (alts : List AltSetting),
        findEndpoints alt = none →
          from_interface (alt :: alts) = from_interface alts) ∧
    (∀ (alt : AltSetting) (alts : List AltSetting) (epOut maxOut epIn maxIn : Nat),
        findBulk .Out alt.endpoints = some (epOut, maxOut) →
        findBulk .In alt.endpoints = some (epIn, maxIn) →
          from_interface (alt :: alts) = .ok (epOut, maxOut, epIn, maxIn)) := by
  refine ⟨?_, findBulk_eq_none_iff, fun d e eps => rfl, ?_, ?_⟩
  · intro alts
    constructor
    · intro h alt halt
      have hnone : findAlt alts = none := by
        unfold from_interface at h
        cases hfa : findAlt alts with
        | none => rfl
        | some r => simp [hfa] at h
      rw [← findEndpoints_eq_none_iff]
      exact (findAlt_eq_none_iff alts).mp hnone alt halt
    · intro h
      have hnone : findAlt alts = none := by
        rw [findAlt_eq_none_iff]
        intro alt halt
        rw [findEndpoints_eq_none_iff]
        exact h alt halt
      unfold from_interface
      rw [hnone]
  · intro alt alts h
    have hfa : findAlt (alt :: alts) = findAlt alts := by simp [findAlt, h]
    unfold from_interface
    rw [hfa]
  · intro alt alts epOut maxOut epIn maxIn ho hi
    have hfa : findAlt (alt :: alts) = some (epOut, maxOut, epIn, maxIn) := by
      simp [findAlt, findEndpoints, ho, hi, bind]
    unfold from_interface
    rw [hfa]

/-- C9 witness: the amended selection applied to a single alternate setting
with one bulk endpoint per direction. -/
theorem C9_first_alt_with_bulk_pair_witness :
    findBulk .Out [EndpointDesc.mk .Bulk .Out 1 512, EndpointDesc.mk .Bulk .In 129 512] =
      some (1, 512) ∧
    findBulk .In [EndpointDesc.mk .Bulk .Out 1 512, EndpointDesc.mk .Bulk .In 129 512] =
      some (129, 512) ∧
    from_interface [AltSetting.mk [EndpointDesc.mk .Bulk .Out 1 512,
        EndpointDesc.mk .Bulk .In 129 512]] = .ok (1, 512, 129, 512) :=
  ⟨by decide, by decide,
   C9_first_alt_with_bulk_pair.2.2.2.2
     (AltSetting.mk [EndpointDesc.mk .Bulk .Out 1 512, EndpointDesc.mk .Bulk .In 129 512])
     [] 1 512 129 512 (by decide) (by decide)⟩

/-- Overrunning `update_size`: the error carries the declared size and the
wrapped total. -/
theorem update_size_overrun (st : DLState) (n : Nat) (h : st.left < n) :
    update_size st n =
      (.error (.IncorrectDataLength st.size ((n - st.left + st.size) % 2 ^ 32)), st) := by
  unfold update_size
  rw [if_pos h]

/-- Successful `update_size`: only `left` changes. -/
theorem update_size_ok (st : DLState) (n : Nat) (h : ¬ st.left < n) :
    update_size st n = (.ok (), { st with left := st.left - n }) := by
  unfold update_size
  rw [if_neg h]

/-- Rotation (`next_buffer`) changes no accounting field and empties the
rolling buffer. -/
theorem next_buffer_fields (st : DLState) :
    (next_buffer st).left = st.left ∧ (next_buffer st).size = st.size ∧
    (next_buffer st).maxOut = st.maxOut ∧ (next_buffer st).current = [] := by
  unfold next_buffer submitBuf
  split <;> exact ⟨rfl, rfl, rfl, rfl⟩

/-- Rotation preserves the bytes accepted so far: the full buffer moves from
`current` to the submission log. -/
theorem streamBytes_next_buffer (st : DLState) :
    streamBytes (next_buffer st) = streamBytes st := by
  unfold next_buffer submitBuf streamBytes
  split <;> simp

/-- The copy loop touches only the buffers, never the byte accounting. -/
theorem extendLoop_acct :
    ∀ (fuel : Nat) (st : DLState) (data : List Nat),
      (extendLoop fuel st data).left = st.left ∧
      (extendLoop fuel st data).size = st.size ∧
      (extendLoop fuel st data).maxOut = st.maxOut := by
  intro fuel
  induction fuel with
  | zero => intro st data; exact ⟨rfl, rfl, rfl⟩
  | succ n ih =>
    intro st data
    unfold extendLoop
    split
    · exact ⟨rfl, rfl, rfl⟩
    · obtain ⟨h1, h2, h3⟩ := ih
        (next_buffer
          { st with current := st.current ++ data.take (st.cap - st.current.length) })
        (data.drop (st.cap - st.current.length))
      obtain ⟨n1, n2, n3, -⟩ := next_buffer_fields
        { st with current := st.current ++ data.take (st.cap - st.current.length) }
      exact ⟨h1.trans n1, h2.trans n2, h3.trans n3⟩

/-- One streaming operation never increases `left` and never changes `size`
or `maxOut`. -/
theorem runOp_acct (st : DLState) (op : DLOp) :
    (runOp st op).left ≤ st.left ∧ (runOp st op).size = st.size ∧
    (runOp st op).maxOut = st.maxOut := by
  cases op with
  | ext data =>
    simp only [runOp]
    unfold extend_from_slice
    by_cases h : st.left < data.length % 2 ^ 32
    · rw [update_size_overrun st _ h]
      exact ⟨Nat.le_refl _, rfl, rfl⟩
    · rw [update_size_ok st _ h]
      obtain ⟨h1, h2, h3⟩ := extendLoop_acct (2 * data.length + 2)
        { st with left := st.left - data.length % 2 ^ 32 } data
      refine ⟨?_, h2, h3⟩
      rw [h1]
      exact Nat.sub_le _ _
  | gmd max =>
    simp only [runOp]
    unfold get_mut_data gmdCore
    have hfields :
        (if st.current.length = st.cap then next_buffer st else st).left = st.left ∧
        (if st.current.length = st.cap then next_buffer st else st).size = st.size ∧
        (if st.current.length = st.cap then next_buffer st else st).maxOut = st.maxOut := by
      split
      · obtain ⟨a, b, c, -⟩ := next_buffer_fields st
        exact ⟨a, b, c⟩
      · exact ⟨rfl, rfl, rfl⟩
    set st1 := if st.current.length = st.cap then next_buffer st else st with hst1
    obtain ⟨f1, f2, f3⟩ := hfields
    by_cases h : st1.left < min (st1.cap - st1.current.length) max % 2 ^ 32
    · rw [update_size_overrun st1 _ h]
      exact ⟨f1.le, f2, f3⟩
    · rw [update_size_ok st1 _ h]
      refine ⟨?_, f2, f3⟩
      show st1.left - _ ≤ st.left
      rw [← f1]
      exact Nat.sub_le _ _

/-- Accounting facts over any operation sequence: `left` never grows,
`size` and `maxOut` never change. -/
theorem runOps_acct :
    ∀ (ops : List DLOp) (st : DLState),
      (runOps st ops).left ≤ st.left ∧ (runOps st ops).size = st.size ∧
      (runOps st ops).maxOut = st.maxOut := by
  intro ops
  induction ops with
  | nil => intro st; exact ⟨Nat.le_refl _, rfl, rfl⟩
  | cons op rest ih =>
    intro st
    obtain ⟨h1, h2, h3⟩ := ih (runOp st op)
    obtain ⟨g1, g2, g3⟩ := runOp_acct st op
    exact ⟨h1.trans g1, h2.trans g2, h3.trans g3⟩

/-- C5: an `extend_from_slice` whose bytes would push the running total past
the declared size fails with `IncorrectDataLength` carrying the declared
size as `expected` and the total supplied including the failing call as
`actual`; a `get_mut_data` whose granted length would push the total past
the size does the same; and `finish` while `left > 0` fails with `expected`
the declared size and `actual` the bytes supplied so far.  The last conjunct
discharges the side conditions: in every state reachable by streaming
operations from a fresh download, `left ≤ size` and `size` is unchanged. -/
theorem C5_incorrect_data_length :
    (∀ (st : DLState) (data : List Nat),
        st.left ≤ st.size → st.left < data.length →
        st.size - st.left + data.length < 2 ^ 32 →
        extend_from_slice st data =
          (.error (.IncorrectDataLength st.size (st.size - st.left + data.length)), st)) ∧
    (∀ (st st' : DLState) (max n : Nat),
        st.left ≤ st.size →
        st' = (if st.current.length = st.cap then next_buffer st else st) →
        n = min (st'.cap - st'.current.length) max →
        st'.left < n → st.size - st.left + n < 2 ^ 32 →
        get_mut_data st max =
          (.error (.IncorrectDataLength st.size (st.size - st.left + n)), st')) ∧
    (∀ st : DLState, st.left ≤ st.size → st.size < 2 ^ 32 → st.left ≠ 0 →
        finish st = (.error (.IncorrectDataLength st.size (st.size - st.left)), st)) ∧
    (∀ (maxOut size : Nat) (ops : List DLOp),
        (runOps (DataDownload.new maxOut size) ops).left ≤
            (runOps (DataDownload.new maxOut size) ops).size ∧
        (runOps (DataDownload.new maxOut size) ops).size = size) := by
  have e32 : (2 : Nat) ^ 32 = 4294967296 := by norm_num
  refine ⟨?_, ?_, ?_, ?_⟩
  · intro st data h1 h2 h3
    have hlen : data.length % 2 ^ 32 = data.length := Nat.mod_eq_of_lt (by omega)
    have hval : (data.length - st.left + st.size) % 2 ^ 32 =
        st.size - st.left + data.length := by
      have heq : data.length - st.left + st.size = st.size - st.left + data.length := by
        omega
      rw [heq]
      exact Nat.mod_eq_of_lt h3
    unfold extend_from_slice
    rw [hlen, update_size_overrun st data.length h2, hval]
  · intro st st' max n h1 hst' hn h2 h3
    have hleft : st'.left = st.left := by
      rw [hst']
      split
      · exact (next_buffer_fields st).1
      · rfl
    have hsize : st'.size = st.size := by
      rw [hst']
      split
      · exact (next_buffer_fields st).2.1
      · rfl
    have h2' : st.left < n := hleft ▸ h2
    have hnmod : n % 2 ^ 32 = n := Nat.mod_eq_of_lt (by omega)
    have hval : (n - st'.left + st'.size) % 2 ^ 32 = st.size - st.left + n := by
      rw [hleft, hsize]
      have heq : n - st.left + st.size = st.size - st.left + n := by omega
      rw [heq]
      exact Nat.mod_eq_of_lt h3
    unfold get_mut_data gmdCore
    rw [← hst', ← hn, hnmod, update_size_overrun st' n h2, hval, hsize]
  · intro st h1 h2 h3
    unfold finish
    rw [if_pos h3, Nat.mod_eq_of_lt (by omega)]
  · intro maxOut size ops
    obtain ⟨h1, h2, -⟩ := runOps_acct ops (DataDownload.new maxOut size)
    constructor
    · rw [h2]
      exact h1
    · exact h2

/-- C5 witness: the spec's own example, a download of declared size 4096
overrun to 4097 bytes, and a `finish` with everything still unsent. -/
theorem C5_incorrect_data_length_witness :
    extend_from_slice (DataDownload.new 512 4096) (List.replicate 4097 1) =
      (.error (.IncorrectDataLength 4096 4097), DataDownload.new 512 4096) ∧
    finish (DataDownload.new 512 4096) =
      (.error (.IncorrectDataLength 4096 0), DataDownload.new 512 4096) := by
  have hL : (List.replicate 4097 (1 : Nat)).length = 4097 := List.length_replicate 4097 1
  constructor
  · have h := C5_incorrect_data_length.1 (DataDownload.new 512 4096)
      (List.replicate 4097 1) (by decide) (by rw [hL]; decide) (by rw [hL]; decide)
    rw [h, hL]
    rfl
  · exact C5_incorrect_data_length.2.2.1 (DataDownload.new 512 4096)
      (by decide) (by decide) (by decide)

/-- C10: a failing `extend_from_slice` leaves the whole state untouched (the
length check runs before any byte is copied), and a failing `get_mut_data`
leaves `left`, `size` and the accepted byte stream untouched (the length
check runs before the buffer is grown; the rotation that may precede it only
moves the already-accepted full buffer into the queue). -/
theorem C10_failed_call_preserves_accounting :
    (∀ (st st' : DLState) (data : List Nat) (e : DownloadError),
        extend_from_slice st data = (.error e, st') → st' = st) ∧
    (∀ (st st' : DLState) (max : Nat) (e : DownloadError),
        get_mut_data st max = (.error e, st') →
          st'.left = st.left ∧ streamBytes st' = streamBytes st ∧
          st'.size = st.size) := by
  constructor
  · intro st st' data e h
    unfold extend_from_slice at h
    by_cases hc : st.left < data.length % 2 ^ 32
    · rw [update_size_overrun st _ hc] at h
      exact (congrArg Prod.snd h).symm
    · rw [update_size_ok st _ hc] at h
      exact Except.noConfusion (congrArg Prod.fst h)
  · intro st st' max e h
    unfold get_mut_data gmdCore at h
    set st1 := if st.current.length = st.cap then next_buffer st else st with hst1
    have hfields : st1.left = st.left ∧ streamBytes st1 = streamBytes st ∧
        st1.size = st.size := by
      rw [hst1]
      split
      · exact ⟨(next_buffer_fields st).1, streamBytes_next_buffer st,
          (next_buffer_fields st).2.1⟩
      · exact ⟨rfl, rfl, rfl⟩
    by_cases hc : st1.left < min (st1.cap - st1.current.length) max % 2 ^ 32
    · rw [update_size_overrun st1 _ hc] at h
      have hst : st' = st1 := (congrArg Prod.snd h).symm
      rw [hst]
      exact hfields
    · rw [update_size_ok st1 _ hc] at h
      exact Except.noConfusion (congrArg Prod.fst h)

/-- C10 witness: a fresh zero-size download rejects one byte through either
entry point, preserving the state and the accepted stream. -/
theorem C10_failed_call_preserves_accounting_witness :
    (DataDownload.new 512 0 = DataDownload.new 512 0) ∧
    ((DataDownload.new 512 0).left = (DataDownload.new 512 0).left ∧
     streamBytes (DataDownload.new 512 0) = streamBytes (DataDownload.new 512 0) ∧
     (DataDownload.new 512 0).size = (DataDownload.new 512 0).size) :=
  ⟨C10_failed_call_preserves_accounting.1 (DataDownload.new 512 0)
     (DataDownload.new 512 0) [7] (.IncorrectDataLength 0 1) rfl,
   C10_failed_call_preserves_accounting.2 (DataDownload.new 512 0)
     (DataDownload.new 512 0) 1 (.IncorrectDataLength 0 1) rfl⟩

/-- Characterization of `next_multiple_of`: the result is a multiple of `m`,
at least `a`, and less than `a + m`. -/
theorem nextMultipleOf_bounds (a m : Nat) (h : 0 < m) :
    nextMultipleOf a m % m = 0 ∧ a ≤ nextMultipleOf a m ∧ nextMultipleOf a m < a + m := by
  unfold nextMultipleOf
  rw [if_neg h.ne']
  refine ⟨Nat.mul_mod_left _ _, ?_, ?_⟩
  · rw [Nat.mul_comm]
    have hdm := Nat.div_add_mod (a + m - 1) m
    have hr : (a + m - 1) % m < m := Nat.mod_lt _ h
    omega
  · rw [Nat.mul_comm]
    have hdm := Nat.div_add_mod (a + m - 1) m
    have hr : (a + m - 1) % m < m := Nat.mod_lt _ h
    omega

/-- Rotation always submits the rolling buffer as it was. -/
theorem next_buffer_submitted (st : DLState) :
    (next_buffer st).submitted = st.submitted ++ [st.current] := by
  unfold next_buffer submitBuf
  split <;> rfl

/-- Rotation does not change the buffer capacity. -/
theorem next_buffer_cap (st : DLState) : (next_buffer st).cap = st.cap := by
  unfold DLState.cap
  rw [(next_buffer_fields st).2.2.1]

/-- The submitted-buffer invariant of the streamer: every buffer in the
submission log is exactly one capacity long, and the rolling buffer never
exceeds the capacity. -/
def SubmitInv (st : DLState) : Prop :=
  (∀ b ∈ st.submitted, b.length = st.cap) ∧ st.current.length ≤ st.cap

/-- Rotation of a full rolling buffer preserves the submitted-buffer
invariant. -/
theorem next_buffer_submitInv (st : DLState) (hinv : SubmitInv st)
    (hfull : st.current.length = st.cap) : SubmitInv (next_buffer st) := by
  obtain ⟨hsub, -⟩ := hinv
  constructor
  · intro b hb
    rw [next_buffer_submitted] at hb
    rw [next_buffer_cap]
    rcases List.mem_append.mp hb with hb | hb
    · exact hsub b hb
    · rw [List.mem_singleton.mp hb]
      exact hfull
  · rw [(next_buffer_fields st).2.2.2, next_buffer_cap]
    exact Nat.zero_le _

/-- The copy loop preserves the submitted-buffer invariant and the
capacity. -/
theorem extendLoop_submitInv :
    ∀ (fuel : Nat) (st : DLState) (data : List Nat), SubmitInv st →
      SubmitInv (extendLoop fuel st data) ∧ (extendLoop fuel st data).cap = st.cap := by
  intro fuel
  induction fuel with
  | zero => intro st data hinv; exact ⟨hinv, rfl⟩
  | succ n ih =>
    intro st data hinv
    obtain ⟨hsub, hcur⟩ := hinv
    unfold extendLoop
    split
    · refine ⟨⟨hsub, ?_⟩, rfl⟩
      show (st.current ++ data).length ≤ st.cap
      rw [List.length_append]
      omega
    · rename_i hgt
      have hfull : ({ st with
          current := st.current ++ data.take (st.cap - st.current.length) } :
            DLState).current.length =
          ({ st with
            current := st.current ++ data.take (st.cap - st.current.length) } :
              DLState).cap := by
        show (st.current ++ data.take (st.cap - st.current.length)).length = st.cap
        rw [List.length_append, List.length_take]
        omega
      have hinv2 : SubmitInv ({ st with
          current := st.current ++ data.take (st.cap - st.current.length) } : DLState) := by
        constructor
        · exact hsub
        · exact hfull.le
      have hrot := next_buffer_submitInv _ hinv2 hfull
      obtain ⟨hres, hcap⟩ := ih
        (next_buffer
          { st with current := st.current ++ data.take (st.cap - st.current.length) })
        (data.drop (st.cap - st.current.length)) hrot
      refine ⟨hres, ?_⟩
      rw [hcap, next_buffer_cap]
      rfl

/-- Every streaming operation preserves the submitted-buffer invariant and
the capacity. -/
theorem runOp_submitInv (st : DLState) (op : DLOp) (hinv : SubmitInv st) :
    SubmitInv (runOp st op) ∧ (runOp st op).cap = st.cap := by
  obtain ⟨hsub, hcur⟩ := hinv
  cases op with
  | ext data =>
    simp only [runOp]
    unfold extend_from_slice
    by_cases h : st.left < data.length % 2 ^ 32
    · rw [update_size_overrun st _ h]
      exact ⟨⟨hsub, hcur⟩, rfl⟩
    · rw [update_size_ok st _ h]
      exact extendLoop_submitInv (2 * data.length + 2)
        { st with left := st.left - data.length % 2 ^ 32 } data ⟨hsub, hcur⟩
  | gmd max =>
    simp only [runOp]
    unfold get_mut_data gmdCore
    have hrot : SubmitInv (if st.current.length = st.cap then next_buffer st else st) ∧
        (if st.current.length = st.cap then next_buffer st else st).cap = st.cap := by
      split
      · rename_i hfull
        exact ⟨next_buffer_submitInv st ⟨hsub, hcur⟩ hfull, next_buffer_cap st⟩
      · exact ⟨⟨hsub, hcur⟩, rfl⟩
    set st1 := if st.current.length = st.cap then next_buffer st else st with hst1
    obtain ⟨⟨hsub1, hcur1⟩, hcap1⟩ := hrot
    by_cases h : st1.left < min (st1.cap - st1.current.length) max % 2 ^ 32
    · rw [update_size_overrun st1 _ h]
      exact ⟨⟨hsub1, hcur1⟩, hcap1⟩
    · rw [update_size_ok st1 _ h]
      refine ⟨⟨hsub1, ?_⟩, hcap1⟩
      show (st1.current ++ List.replicate (min (st1.cap - st1.current.length) max) 0).length ≤
        st1.cap
      rw [List.length_append, List.length_replicate]
      omega

/-- Operation sequences preserve the submitted-buffer invariant and the
capacity. -/
theorem runOps_submitInv :
    ∀ (ops : List DLOp) (st : DLState), SubmitInv st →
      SubmitInv (runOps st ops) ∧ (runOps st ops).cap = st.cap := by
  intro ops
  induction ops with
  | nil => intro st hinv; exact ⟨hinv, rfl⟩
  | cons op rest ih =>
    intro st hinv
    obtain ⟨h1, h2⟩ := runOp_submitInv st op hinv
    obtain ⟨h3, h4⟩ := ih (runOp st op) h1
    exact ⟨h3, h4.trans h2⟩

/-- Whatever `finish` does, the submission log it leaves behind is the old
log possibly extended by one final buffer. -/
theorem finish_submitted (st : DLState) :
    (finish st).2.submitted = st.submitted ∨
    (finish st).2.submitted = st.submitted ++ [st.current] := by
  unfold finish submitBuf
  by_cases h1 : st.left ≠ 0
  · rw [if_pos h1]
    exact Or.inl rfl
  · rw [if_neg h1]
    by_cases h2 : st.current ≠ []
    · rw [if_pos h2]
      exact Or.inr rfl
    · rw [if_neg h2]
      exact Or.inl rfl

/-- C6: with a positive max OUT packet size, the buffer capacity is 1 MiB
rounded up to the next multiple of `max_out` (a multiple of `max_out`, at
least 1 MiB, minimal such); every buffer submitted by the streaming
operations has length a multiple of `max_out` (they are submitted only when
full); and after `finish` every submitted buffer except possibly the single
final one still has length a multiple of `max_out`. -/
theorem C6_submitted_buffers_aligned :
    ∀ (maxOut size : Nat) (ops : List DLOp), 0 < maxOut →
      (DataDownload.new maxOut size).cap % maxOut = 0 ∧
      1024 * 1024 ≤ (DataDownload.new maxOut size).cap ∧
      (DataDownload.new maxOut size).cap < 1024 * 1024 + maxOut ∧
      (∀ b ∈ (runOps (DataDownload.new maxOut size) ops).submitted,
          b.length % maxOut = 0) ∧
      (∀ b ∈ (finish (runOps (DataDownload.new maxOut size) ops)).2.submitted.dropLast,
          b.length % maxOut = 0) := by
  intro maxOut size ops h
  obtain ⟨hmod, hlo, hhi⟩ := nextMultipleOf_bounds (1024 * 1024) maxOut h
  have hinv0 : SubmitInv (DataDownload.new maxOut size) := by
    constructor
    · intro b hb
      simp [DataDownload.new] at hb
    · exact Nat.zero_le _
  obtain ⟨⟨hsub, -⟩, hcap⟩ := runOps_submitInv ops (DataDownload.new maxOut size) hinv0
  have hall : ∀ b ∈ (runOps (DataDownload.new maxOut size) ops).submitted,
      b.length % maxOut = 0 := by
    intro b hb
    rw [hsub b hb, hcap]
    exact hmod
  refine ⟨hmod, hlo, hhi, hall, ?_⟩
  intro b hb
  rcases finish_submitted (runOps (DataDownload.new maxOut size) ops) with hf | hf
  · rw [hf] at hb
    exact hall b (List.dropLast_sublist _ |>.mem hb)
  · rw [hf, List.dropLast_concat] at hb
    exact hall b hb

/-- The queue-depth invariant: at most three transfers pending, and the
high-water mark has never exceeded three. -/
def DepthInv (st : DLState) : Prop :=
  st.pending.length ≤ 3 ∧ st.hiwater ≤ 3

/-- Rotation preserves the queue-depth invariant: with fewer than three
pending it submits one more (at most three), with three pending it awaits
the oldest completion before submitting (back to three). -/
theorem next_buffer_depthInv (st : DLState) (h : DepthInv st) :
    DepthInv (next_buffer st) := by
  obtain ⟨hp, hw⟩ := h
  unfold next_buffer submitBuf
  by_cases hlt : st.pending.length < 3
  · rw [if_pos hlt]
    constructor
    · show (st.pending ++ [st.current]).length ≤ 3
      rw [List.length_append]
      simp only [List.length_singleton]
      omega
    · show max st.hiwater (st.pending.length + 1) ≤ 3
      omega
  · rw [if_neg hlt]
    constructor
    · show (st.pending.tail ++ [st.current]).length ≤ 3
      rw [List.length_append, List.length_tail]
      simp only [List.length_singleton]
      omega
    · show max st.hiwater (st.pending.tail.length + 1) ≤ 3
      rw [List.length_tail]
      omega

/-- The copy loop preserves the queue-depth invariant. -/
theorem extendLoop_depthInv :
    ∀ (fuel : Nat) (st : DLState) (data : List Nat), DepthInv st →
      DepthInv (extendLoop fuel st data) := by
  intro fuel
  induction fuel with
  | zero => intro st data h; exact h
  | succ n ih =>
    intro st data h
    unfold extendLoop
    split
    · exact h
    · exact ih _ _ (next_buffer_depthInv _ h)

/-- Every streaming operation preserves the queue-depth invariant. -/
theorem runOp_depthInv (st : DLState) (op : DLOp) (h : DepthInv st) :
    DepthInv (runOp st op) := by
  cases op with
  | ext data =>
    simp only [runOp]
    unfold extend_from_slice
    by_cases hc : st.left < data.length % 2 ^ 32
    · rw [update_size_overrun st _ hc]
      exact h
    · rw [update_size_ok st _ hc]
      exact extendLoop_depthInv _ _ _ h
  | gmd max =>
    simp only [runOp]
    unfold get_mut_data gmdCore
    have hrot : DepthInv (if st.current.length = st.cap then next_buffer st else st) := by
      split
      · exact next_buffer_depthInv st h
      · exact h
    set st1 := if st.current.length = st.cap then next_buffer st else st with hst1
    by_cases hc : st1.left < min (st1.cap - st1.current.length) max % 2 ^ 32
    · rw [update_size_overrun st1 _ hc]
      exact hrot
    · rw [update_size_ok st1 _ hc]
      exact hrot

/-- Operation sequences preserve the queue-depth invariant. -/
theorem runOps_depthInv :
    ∀ (ops : List DLOp) (st : DLState), DepthInv st → DepthInv (runOps st ops) := by
  intro ops
  induction ops with
  | nil => intro st h; exact h
  | cons op rest ih => intro st h; exact ih (runOp st op) (runOp_depthInv st op h)

/-- What `finish` does to the queue: the high-water mark rises to at most
four (the final short buffer may be submitted while three transfers are
pending), and on success the drain leaves the queue empty. -/
theorem finish_depth (st : DLState) (h : DepthInv st) :
    (finish st).2.hiwater ≤ 4 ∧
    ((finish st).1 = .ok () → (finish st).2.pending = []) := by
  obtain ⟨hp, hw⟩ := h
  unfold finish submitBuf
  by_cases h1 : st.left ≠ 0
  · rw [if_pos h1]
    refine ⟨?_, fun hok => Except.noConfusion hok⟩
    show st.hiwater ≤ 4
    omega
  · rw [if_neg h1]
    by_cases h2 : st.current ≠ []
    · rw [if_pos h2]
      constructor
      · show max st.hiwater (st.pending.length + 1) ≤ 4
        omega
      · intro _
        rfl
    · rw [if_neg h2]
      refine ⟨?_, fun _ => rfl⟩
      show st.hiwater ≤ 4
      omega

/-- Rotation of a non-full rolling buffer does not happen in
`get_mut_data`. -/
theorem get_mut_data_no_rotate (st : DLState) (max : Nat)
    (h : ¬ st.current.length = st.cap) :
    get_mut_data st max = gmdCore st max := by
  unfold get_mut_data
  rw [if_neg h]

/-- A full rolling buffer is rotated first in `get_mut_data`. -/
theorem get_mut_data_rotate (st : DLState) (max : Nat)
    (h : st.current.length = st.cap) :
    get_mut_data st max = gmdCore (next_buffer st) max := by
  unfold get_mut_data
  rw [if_pos h]

/-- Unfolding of `runOps` on a first operation. -/
theorem runOps_cons (st : DLState) (op : DLOp) (ops : List DLOp) :
    runOps st (op :: ops) = runOps (runOp st op) ops := rfl

/-- Unfolding of `runOp` on a `get_mut_data` operation. -/
theorem runOp_gmd (st : DLState) (max : Nat) :
    runOp st (.gmd max) = (get_mut_data st max).2 := rfl

/-- Full rolling buffer after the first 1 MiB grant of the C4 trace. -/
theorem traceFull1 : (⟨1, 3145733, 2097157, List.replicate 1048576 0, [], [], 0, 1⟩ :
    DLState).current.length =
    (⟨1, 3145733, 2097157, List.replicate 1048576 0, [], [], 0, 1⟩ : DLState).cap := by
  show (List.replicate 1048576 (0 : Nat)).length = _
  rw [List.length_replicate]
  decide

/-- Full rolling buffer after the second 1 MiB grant of the C4 trace. -/
theorem traceFull2 : (⟨1, 3145733, 1048581, List.replicate 1048576 0,
    [List.replicate 1048576 0], [List.replicate 1048576 0], 1, 2⟩ :
    DLState).current.length =
    (⟨1, 3145733, 1048581, List.replicate 1048576 0,
      [List.replicate 1048576 0], [List.replicate 1048576 0], 1, 2⟩ : DLState).cap := by
  show (List.replicate 1048576 (0 : Nat)).length = _
  rw [List.length_replicate]
  decide

/-- Full rolling buffer after the third 1 MiB grant of the C4 trace. -/
theorem traceFull3 : (⟨1, 3145733, 5, List.replicate 1048576 0,
    [List.replicate 1048576 0, List.replicate 1048576 0],
    [List.replicate 1048576 0, List.replicate 1048576 0], 2, 3⟩ :
    DLState).current.length =
    (⟨1, 3145733, 5, List.replicate 1048576 0,
      [List.replicate 1048576 0, List.replicate 1048576 0],
      [List.replicate 1048576 0, List.replicate 1048576 0], 2, 3⟩ : DLState).cap := by
  show (List.replicate 1048576 (0 : Nat)).length = _
  rw [List.length_replicate]
  decide

/-- First step of the C4 trace: a full 1 MiB grant, no rotation. -/
theorem traceStep1 : get_mut_data (DataDownload.new 1 3145733) 1048576 =
    (.ok 1048576,
     (⟨1, 3145733, 2097157, List.replicate 1048576 0, [], [], 0, 1⟩ : DLState)) := rfl

/-- Second step of the C4 trace: rotation (one transfer pending) and a full
grant. -/
theorem traceStep2 : get_mut_data
    (⟨1, 3145733, 2097157, List.replicate 1048576 0, [], [], 0, 1⟩ : DLState) 1048576 =
    (.ok 1048576, (⟨1, 3145733, 1048581, List.replicate 1048576 0,
     [List.replicate 1048576 0], [List.replicate 1048576 0], 1, 2⟩ : DLState)) :=
  (get_mut_data_rotate _ 1048576 traceFull1).trans rfl

/-- Third step of the C4 trace: rotation (two pending) and a full grant. -/
theorem traceStep3 : get_mut_data (⟨1, 3145733, 1048581, List.replicate 1048576 0,
    [List.replicate 1048576 0], [List.replicate 1048576 0], 1, 2⟩ : DLState) 1048576 =
    (.ok 1048576, (⟨1, 3145733, 5, List.replicate 1048576 0,
     [List.replicate 1048576 0, List.replicate 1048576 0],
     [List.replicate 1048576 0, List.replicate 1048576 0], 2, 3⟩ : DLState)) :=
  (get_mut_data_rotate _ 1048576 traceFull2).trans rfl

/-- Fourth step of the C4 trace: rotation (three pending) and the final
5-byte grant, leaving `left = 0` and a non-empty rolling buffer. -/
theorem traceStep4 : get_mut_data (⟨1, 3145733, 5, List.replicate 1048576 0,
    [List.replicate 1048576 0, List.replicate 1048576 0],
    [List.replicate 1048576 0, List.replicate 1048576 0], 2, 3⟩ : DLState) 5 =
    (.ok 5, (⟨1, 3145733, 0, List.replicate 5 0,
     [List.replicate 1048576 0, List.replicate 1048576 0, List.replicate 1048576 0],
     [List.replicate 1048576 0, List.replicate 1048576 0, List.replicate 1048576 0],
     3, 4⟩ : DLState)) :=
  (get_mut_data_rotate _ 5 traceFull3).trans rfl

/-- C4 counterexample: the claim states that at every point of any sequence
of streaming operations including `finish` at most three transfers are
pending.  Starting a download of `3 * 1048576 + 5` bytes with `max_out = 1`
(capacity 1 MiB), three full `get_mut_data` grants plus a 5-byte grant leave
three transfers pending and a non-empty rolling buffer with `left = 0`;
`finish` then submits the final buffer without awaiting a completion, so the
ghost high-water mark of pending transfers reaches four. -/
theorem C4_counterexample :
    (finish (runOps (DataDownload.new 1 3145733)
        [.gmd 1048576, .gmd 1048576, .gmd 1048576, .gmd 5])).2.hiwater = 4 := by
  have hrun : runOps (DataDownload.new 1 3145733)
      [.gmd 1048576, .gmd 1048576, .gmd 1048576, .gmd 5] =
      ⟨1, 3145733, 0, List.replicate 5 0,
       [List.replicate 1048576 0, List.replicate 1048576 0, List.replicate 1048576 0],
       [List.replicate 1048576 0, List.replicate 1048576 0, List.replicate 1048576 0],
       3, 4⟩ := by
    rw [runOps_cons, runOp_gmd, traceStep1]
    show runOps (⟨1, 3145733, 2097157, List.replicate 1048576 0, [], [], 0, 1⟩ : DLState)
      [.gmd 1048576, .gmd 1048576, .gmd 5] = _
    rw [runOps_cons, runOp_gmd, traceStep2]
    show runOps (⟨1, 3145733, 1048581, List.replicate 1048576 0,
      [List.replicate 1048576 0], [List.replicate 1048576 0], 1, 2⟩ : DLState)
      [.gmd 1048576, .gmd 5] = _
    rw [runOps_cons, runOp_gmd, traceStep3]
    show runOps (⟨1, 3145733, 5, List.replicate 1048576 0,
      [List.replicate 1048576 0, List.replicate 1048576 0],
      [List.replicate 1048576 0, List.replicate 1048576 0], 2, 3⟩ : DLState)
      [.gmd 5] = _
    rw [runOps_cons, runOp_gmd, traceStep4]
    rfl
  rw [hrun]
  rfl

/-- C4 (amended): throughout `extend_from_slice` and `get_mut_data` at most
three transfers are pending: a rotation with fewer than three pending
allocates a fresh buffer and submits without awaiting, and a rotation with
three pending awaits the oldest completion first, reusing its buffer
truncated to length 0.  `finish`, however, submits the final partial buffer
without awaiting, so up to four transfers can be pending briefly; on success
its drain leaves the queue empty. -/
theorem C4_queue_depth_bounds :
    (∀ st : DLState, st.pending.length < 3 →
        (next_buffer st).allocs = st.allocs + 1 ∧
        (next_buffer st).pending = st.pending ++ [st.current] ∧
        (next_buffer st).current = []) ∧
    (∀ st : DLState, ¬ st.pending.length < 3 →
        (next_buffer st).allocs = st.allocs ∧
        (next_buffer st).pending = st.pending.tail ++ [st.current] ∧
        (next_buffer st).current = []) ∧
    (∀ (maxOut size : Nat) (ops : List DLOp),
        (runOps (DataDownload.new maxOut size) ops).pending.length ≤ 3 ∧
        (runOps (DataDownload.new maxOut size) ops).hiwater ≤ 3) ∧
    (∀ (maxOut size : Nat) (ops : List DLOp),
        (finish (runOps (DataDownload.new maxOut size) ops)).2.hiwater ≤ 4 ∧
        ((finish (runOps (DataDownload.new maxOut size) ops)).1 = .ok () →
          (finish (runOps (DataDownload.new maxOut size) ops)).2.pending = [])) := by
  have hinv0 : ∀ maxOut size : Nat, DepthInv (DataDownload.new maxOut size) :=
    fun maxOut size =>
      ⟨by show ([] : List (List Nat)).length ≤ 3; decide, by show (0 : Nat) ≤ 3; decide⟩
  refine ⟨?_, ?_, ?_, ?_⟩
  · intro st h
    unfold next_buffer submitBuf
    rw [if_pos h]
    exact ⟨rfl, rfl, rfl⟩
  · intro st h
    unfold next_buffer submitBuf
    rw [if_neg h]
    exact ⟨rfl, rfl, rfl⟩
  · intro maxOut size ops
    exact runOps_depthInv ops (DataDownload.new maxOut size) (hinv0 maxOut size)
  · intro maxOut size ops
    exact finish_depth _ (runOps_depthInv ops (DataDownload.new maxOut size)
      (hinv0 maxOut size))

/-- C4 witness: the fresh-allocation branch of the rotation dichotomy at a
concrete state with an empty queue. -/
theorem C4_queue_depth_bounds_witness :
    (DataDownload.new 512 0).pending.length < 3 ∧
    (next_buffer (DataDownload.new 512 0)).allocs = (DataDownload.new 512 0).allocs + 1 ∧
    (next_buffer (DataDownload.new 512 0)).pending =
      (DataDownload.new 512 0).pending ++ [(DataDownload.new 512 0).current] ∧
    (next_buffer (DataDownload.new 512 0)).current = [] :=
  ⟨by decide,
   (C4_queue_depth_bounds.1 (DataDownload.new 512 0) (by decide)).1,
   (C4_queue_depth_bounds.1 (DataDownload.new 512 0) (by decide)).2.1,
   (C4_queue_depth_bounds.1 (DataDownload.new 512 0) (by decide)).2.2⟩

/-- C6 witness: a fresh download with packet size 512 and no operations. -/
theorem C6_submitted_buffers_aligned_witness :
    (DataDownload.new 512 0).cap % 512 = 0 ∧
    1024 * 1024 ≤ (DataDownload.new 512 0).cap ∧
    (DataDownload.new 512 0).cap < 1024 * 1024 + 512 ∧
    (∀ b ∈ (runOps (DataDownload.new 512 0) []).submitted, b.length % 512 = 0) ∧
    (∀ b ∈ (finish (runOps (DataDownload.new 512 0) [])).2.submitted.dropLast,
        b.length % 512 = 0) :=
  C6_submitted_buffers_aligned 512 0 [] (by decide)

end FastbootRs
